import Mathlib

/-!
Shallow embedding of the Paper Trading Service (`src/main.py`).

Monetary amounts, prices and share quantities are Python floats in the
source; they are modelled as rationals (`ℚ`), so the arithmetic identities
below are exact. The price oracle (`get_current_price`) is modelled as an
explicit price argument (`market_price`), with the source's convention that
an unavailable price is reported as `0`. Timestamps are opaque strings
passed in explicitly. Persistence (`load_accounts`/`save_accounts`) is
outside the engine: `place_order` and `reset_account` are modelled as pure
functions from the in-memory account record to the updated record plus the
HTTP response payload.
-/

namespace PaperTrading

/-- Trading configuration constant `SLIPPAGE_PERCENT = 0.1` (percent). -/
def SLIPPAGE_PERCENT : ℚ := 1/10

/-- Trading configuration constant `COMMISSION_PER_TRADE = 0.0`. -/
def COMMISSION_PER_TRADE : ℚ := 0

/-- Trading configuration constant `STARTING_CASH = 100000.0`. -/
def STARTING_CASH : ℚ := 100000

/-- A held position: the dict `{ticker, quantity, avgCostBasis}` stored in
`account['positions']`. -/
structure Position where
  ticker : String
  quantity : ℚ
  avgCostBasis : ℚ
deriving Repr, DecidableEq

/-- An order request (`class Order`): `type` is "market" or "limit", `side`
is "buy" or "sell". The field `type` is a Lean keyword, hence `otype`. -/
structure Order where
  ticker : String
  otype : String
  side : String
  quantity : ℚ
  limitPrice : Option ℚ
deriving Repr, DecidableEq

/-- The dict appended to `account['orders']` when an order fills. -/
structure OrderRecord where
  orderId : String
  ticker : String
  otype : String
  side : String
  quantity : ℚ
  filledPrice : ℚ
  filledQuantity : ℚ
  status : String
  timestamp : String
deriving Repr, DecidableEq

/-- The persisted account record (`accounts[user_id]`). -/
structure Account where
  userId : String
  cash : ℚ
  positions : List Position
  orders : List OrderRecord
  createdAt : String
deriving Repr, DecidableEq

/-- The response model `OrderResponse`. -/
structure OrderResponse where
  orderId : String
  status : String
  filledPrice : Option ℚ
  filledQuantity : Option ℚ
  message : String
deriving Repr, DecidableEq

/-- The rejection responses built throughout `place_order`:
`OrderResponse(orderId="", status="rejected", message=msg)`. -/
def rejectResponse (msg : String) : OrderResponse :=
  { orderId := "", status := "rejected", filledPrice := none,
    filledQuantity := none, message := msg }

/-- `apply_slippage` (src/main.py lines 117-125): buys fill slightly higher,
anything else (the sell side) slightly lower. -/
def apply_slippage (price : ℚ) (side : String) : ℚ :=
  if side = "buy" then price + price * (SLIPPAGE_PERCENT / 100)
  else price - price * (SLIPPAGE_PERCENT / 100)

/-- Execution-price determination of `place_order` (lines 214-234): market
orders take the slippage-adjusted market price; limit orders need a limit
price and fill at it exactly when it is favorable, else they are rejected. -/
def determineExecutionPrice (order : Order) (market_price : ℚ) :
    Except OrderResponse ℚ :=
  if order.otype = "market" then
    Except.ok (apply_slippage market_price order.side)
  else
    match order.limitPrice with
    | none => Except.error (rejectResponse "Limit price required for limit orders")
    | some lp =>
      if order.side = "buy" ∧ lp ≥ market_price then Except.ok lp
      else if order.side = "sell" ∧ lp ≤ market_price then Except.ok lp
      else Except.error
        (rejectResponse "Limit price not favorable for immediate execution")

/-- Position-ledger update on a buy (lines 251-269): update the first
position with the order's ticker by the weighted-average rule, or append a
new position at the execution price. -/
def buyUpdatePositions (ps : List Position) (t : String) (q price : ℚ) :
    List Position :=
  match ps with
  | [] => [{ ticker := t, quantity := q, avgCostBasis := price }]
  | p :: rest =>
    if p.ticker = t then
      { p with
        quantity := p.quantity + q,
        avgCostBasis := (p.quantity * p.avgCostBasis + q * price) / (p.quantity + q) }
        :: rest
    else p :: buyUpdatePositions rest t q price

/-- Position-ledger update on a sell (lines 299-303): decrement the first
position with the order's ticker; remove it when its quantity reaches 0. -/
def sellUpdatePositions (ps : List Position) (t : String) (q : ℚ) :
    List Position :=
  match ps with
  | [] => []
  | p :: rest =>
    if p.ticker = t then
      if p.quantity - q = 0 then rest
      else { p with quantity := p.quantity - q } :: rest
    else p :: sellUpdatePositions rest t q

/-- The history dict appended at lines 305-317 when an order fills. Its
`orderId` is `order_<n>` with `n` the prior history length plus one. The
fill message below is formatted with `f"...${execution_price:.2f}"` in the
source; the two-decimal rendering is not modelled, the raw value is
interpolated instead. -/
def filledRecord (account : Account) (order : Order) (execution_price : ℚ)
    (now : String) : OrderRecord :=
  { orderId := "order_" ++ toString (account.orders.length + 1),
    ticker := order.ticker, otype := order.otype,
    side := order.side, quantity := order.quantity,
    filledPrice := execution_price, filledQuantity := order.quantity,
    status := "filled", timestamp := now }

/-- The filled `OrderResponse` returned at lines 321-327. -/
def filledResponse (account : Account) (order : Order) (execution_price : ℚ) :
    OrderResponse :=
  { orderId := "order_" ++ toString (account.orders.length + 1),
    status := "filled",
    filledPrice := some execution_price,
    filledQuantity := some order.quantity,
    message := "Order filled at $" ++ toString execution_price }

/-- Lines 305-327 combined: append the history record, return the response. -/
def recordOrder (account : Account) (order : Order) (execution_price : ℚ)
    (now : String) : OrderResponse × Account :=
  (filledResponse account order execution_price,
   { account with
     orders := account.orders ++ [filledRecord account order execution_price now] })

/-- Buy branch of `place_order` (lines 237-269): reject on insufficient
funds; otherwise deduct cash, apply the ledger buy, record the order. -/
def executeBuy (account : Account) (order : Order) (execution_price : ℚ)
    (now : String) : OrderResponse × Account :=
  if account.cash < order.quantity * execution_price + COMMISSION_PER_TRADE then
    (rejectResponse "Insufficient funds", account)
  else
    recordOrder
      { account with
        cash := account.cash - (order.quantity * execution_price + COMMISSION_PER_TRADE),
        positions := buyUpdatePositions account.positions order.ticker
          order.quantity execution_price }
      order execution_price now

/-- Sell branch of `place_order` (lines 271-303): reject when no position or
too few shares; otherwise credit proceeds, apply the ledger sell, record. -/
def executeSell (account : Account) (order : Order) (execution_price : ℚ)
    (now : String) : OrderResponse × Account :=
  match account.positions.find? (fun p => p.ticker == order.ticker) with
  | none => (rejectResponse "No position to sell", account)
  | some position =>
    if position.quantity < order.quantity then
      (rejectResponse "Insufficient shares", account)
    else
      recordOrder
        { account with
          cash := account.cash + (order.quantity * execution_price - COMMISSION_PER_TRADE),
          positions := sellUpdatePositions account.positions order.ticker
            order.quantity }
        order execution_price now

/-- `place_order` (lines 194-327), for an existing account. The market price
the oracle returned is passed in; `0` means unavailable. Any side other than
"buy" takes the source's `else` (sell) branch. -/
def place_order (account : Account) (order : Order) (market_price : ℚ)
    (now : String) : OrderResponse × Account :=
  if market_price = 0 then
    (rejectResponse ("Unable to fetch price for " ++ order.ticker), account)
  else
    match determineExecutionPrice order market_price with
    | Except.error resp => (resp, account)
    | Except.ok execution_price =>
      if order.side = "buy" then executeBuy account order execution_price now
      else executeSell account order execution_price now

/-- `reset_account` (lines 329-345): overwrite the account with a fresh one
at starting cash; the previous state is ignored. -/
def reset_account (user_id now : String) (_account : Account) : Account :=
  { userId := user_id, cash := STARTING_CASH, positions := [], orders := [],
    createdAt := now }

/-- Per-position valuation fields computed by `calculate_account_metrics`
(lines 132-149), with the oracle as a total price assignment (unavailable
prices arrive as 0, as `get_current_price` reports them). -/
structure PositionMetrics where
  ticker : String
  quantity : ℚ
  avgCostBasis : ℚ
  currentPrice : ℚ
  marketValue : ℚ
  unrealizedPL : ℚ
  unrealizedPLPercent : ℚ
deriving Repr, DecidableEq

/-- Account-level valuation produced by `calculate_account_metrics`. -/
structure AccountMetrics where
  cash : ℚ
  positions : List PositionMetrics
  totalValue : ℚ
  totalPL : ℚ
  totalPLPercent : ℚ
deriving Repr, DecidableEq

/-- The loop body of `calculate_account_metrics` for one position. -/
def positionMetrics (getPrice : String → ℚ) (p : Position) : PositionMetrics :=
  let current_price := getPrice p.ticker
  let market_value := p.quantity * current_price
  let cost_basis := p.quantity * p.avgCostBasis
  let unrealized_pl := market_value - cost_basis
  { ticker := p.ticker, quantity := p.quantity, avgCostBasis := p.avgCostBasis,
    currentPrice := current_price, marketValue := market_value,
    unrealizedPL := unrealized_pl,
    unrealizedPLPercent :=
      if cost_basis > 0 then unrealized_pl / cost_basis * 100 else 0 }

/-- `calculate_account_metrics` (lines 127-156): `total_market_value` starts
at the cash balance and accumulates each position's market value. -/
def calculate_account_metrics (getPrice : String → ℚ) (account : Account) :
    AccountMetrics :=
  let ms := account.positions.map (positionMetrics getPrice)
  let initial_value := STARTING_CASH
  let total_market_value := ms.foldl (fun acc m => acc + m.marketValue) account.cash
  let totalPL := total_market_value - initial_value
  { cash := account.cash, positions := ms, totalValue := total_market_value,
    totalPL := totalPL,
    totalPLPercent := if initial_value > 0 then totalPL / initial_value * 100 else 0 }


lemma place_order_err (a : Account) (o : Order) (mp : ℚ) (now : String) (r : OrderResponse)
    (hmp : ¬ mp = 0) (hr : determineExecutionPrice o mp = Except.error r) :
    place_order a o mp now = (r, a) := by
  unfold place_order
  rw [if_neg hmp, hr]

lemma place_order_ok (a : Account) (o : Order) (mp : ℚ) (now : String) (px : ℚ)
    (hmp : ¬ mp = 0) (hpx : determineExecutionPrice o mp = Except.ok px) :
    place_order a o mp now =
      if o.side = "buy" then executeBuy a o px now else executeSell a o px now := by
  unfold place_order
  rw [if_neg hmp, hpx]

lemma determine_err_status (o : Order) (mp : ℚ) (r : OrderResponse)
    (h : determineExecutionPrice o mp = Except.error r) : r.status = "rejected" := by
  unfold determineExecutionPrice at h
  split at h
  · exact absurd h (by simp)
  · cases hl : o.limitPrice with
    | none =>
      rw [hl] at h
      simp at h
      rw [← h]
      rfl
    | some lp =>
      rw [hl] at h
      simp at h
      split at h
      · exact absurd h (by simp)
      · split at h
        · exact absurd h (by simp)
        · simp at h
          rw [← h]
          rfl

lemma place_order_rejected_unchanged (a : Account) (o : Order) (mp : ℚ) (now : String)
    (h : (place_order a o mp now).1.status = "rejected") :
    (place_order a o mp now).2 = a := by
  by_cases hmp : mp = 0
  · simp [place_order, hmp]
  · cases hdet : determineExecutionPrice o mp with
    | error r => rw [place_order_err a o mp now r hmp hdet]
    | ok px =>
      rw [place_order_ok a o mp now px hmp hdet] at h ⊢
      by_cases hside : o.side = "buy"
      · rw [if_pos hside] at h ⊢
        unfold executeBuy at h ⊢
        split at h
        · simp_all
        · simp [recordOrder, filledResponse] at h
      · rw [if_neg hside] at h ⊢
        unfold executeSell at h ⊢
        split at h
        · simp_all
        · split at h
          · simp_all
          · simp [recordOrder, filledResponse] at h

lemma place_order_status (a : Account) (o : Order) (mp : ℚ) (now : String) :
    (place_order a o mp now).1.status = "filled" ∨
    (place_order a o mp now).1.status = "rejected" := by
  by_cases hmp : mp = 0
  · simp [place_order, hmp, rejectResponse]
  · cases hdet : determineExecutionPrice o mp with
    | error r =>
      rw [place_order_err a o mp now r hmp hdet]
      exact Or.inr (determine_err_status o mp r hdet)
    | ok px =>
      rw [place_order_ok a o mp now px hmp hdet]
      by_cases hside : o.side = "buy"
      · rw [if_pos hside]
        unfold executeBuy
        split
        · simp [rejectResponse]
        · simp [recordOrder, filledResponse]
      · rw [if_neg hside]
        unfold executeSell
        split
        · simp [rejectResponse]
        · split
          · simp [rejectResponse]
          · simp [recordOrder, filledResponse]

lemma place_order_filled_inv (a : Account) (o : Order) (mp : ℚ) (now : String)
    (h : (place_order a o mp now).1.status = "filled") :
    ¬ mp = 0 ∧ ∃ px, determineExecutionPrice o mp = Except.ok px ∧
      (place_order a o mp now).1.filledPrice = some px ∧
      (place_order a o mp now).1.filledQuantity = some o.quantity ∧
      (place_order a o mp now).2.orders =
        a.orders ++ [filledRecord
          (if o.side = "buy" then
            { a with
              cash := a.cash - (o.quantity * px + COMMISSION_PER_TRADE),
              positions := buyUpdatePositions a.positions o.ticker o.quantity px }
           else
            { a with
              cash := a.cash + (o.quantity * px - COMMISSION_PER_TRADE),
              positions := sellUpdatePositions a.positions o.ticker o.quantity })
          o px now] ∧
      ((o.side = "buy" ∧
          ¬ a.cash < o.quantity * px + COMMISSION_PER_TRADE ∧
          (place_order a o mp now).2.cash =
            a.cash - (o.quantity * px + COMMISSION_PER_TRADE) ∧
          (place_order a o mp now).2.positions =
            buyUpdatePositions a.positions o.ticker o.quantity px)
       ∨ (¬ o.side = "buy" ∧ ∃ pos,
            a.positions.find? (fun p => p.ticker == o.ticker) = some pos ∧
            ¬ pos.quantity < o.quantity ∧
            (place_order a o mp now).2.cash =
              a.cash + (o.quantity * px - COMMISSION_PER_TRADE) ∧
            (place_order a o mp now).2.positions =
              sellUpdatePositions a.positions o.ticker o.quantity)) := by
  by_cases hmp : mp = 0
  · exfalso
    simp [place_order, hmp, rejectResponse] at h
  · cases hdet : determineExecutionPrice o mp with
    | error r =>
      exfalso
      rw [place_order_err a o mp now r hmp hdet] at h
      have := determine_err_status o mp r hdet
      rw [this] at h
      exact absurd h (by simp)
    | ok px =>
      refine ⟨hmp, px, rfl, ?_⟩
      rw [place_order_ok a o mp now px hmp hdet] at h ⊢
      by_cases hside : o.side = "buy"
      · rw [if_pos hside] at h ⊢
        unfold executeBuy at h ⊢
        split at h
        · simp [rejectResponse] at h
        · rename_i hcash
          rw [if_neg hcash]
          refine ⟨by simp [recordOrder, filledResponse], by simp [recordOrder, filledResponse],
            by simp [recordOrder, hside], Or.inl ⟨hside, hcash, by simp [recordOrder], by simp [recordOrder]⟩⟩
      · rw [if_neg hside] at h ⊢
        unfold executeSell at h ⊢
        split at h
        · simp [rejectResponse] at h
        · rename_i pos hfind
          rw [hfind]
          split at h
          · simp [rejectResponse] at h
          · rename_i hqty
            rw [if_neg hqty]
            refine ⟨by simp [recordOrder, filledResponse], by simp [recordOrder, filledResponse],
              by simp [recordOrder, hside], Or.inr ⟨hside, pos, rfl, hqty, by simp [recordOrder], by simp [recordOrder]⟩⟩


/- Concrete inputs used by counterexamples and witnesses. -/

/-- A sample account: $100 cash, 5 shares of XYZ at cost basis 10. -/
def sampleAccount : Account :=
  { userId := "user_1", cash := 100, positions := [⟨"XYZ", 5, 10⟩],
    orders := [], createdAt := "t0" }

/-- A zero-quantity market buy. -/
def zeroQtyBuy : Order :=
  { ticker := "ABC", otype := "market", side := "buy", quantity := 0, limitPrice := none }

/-- A negative-quantity market sell on a held ticker. -/
def negQtySell : Order :=
  { ticker := "XYZ", otype := "market", side := "sell", quantity := -10, limitPrice := none }

/-- Claim C10: `place_order` never validates that the requested quantity is
positive: a zero-quantity market buy at an available price is filled and
appends an order record, and a negative-quantity market sell on a held
position is filled and strictly decreases cash. -/
theorem C10_no_quantity_validation :
    (place_order sampleAccount zeroQtyBuy 10 "t1").1.status = "filled" ∧
    (place_order sampleAccount zeroQtyBuy 10 "t1").2.orders.length =
      sampleAccount.orders.length + 1 ∧
    (place_order sampleAccount negQtySell 10 "t1").1.status = "filled" ∧
    (place_order sampleAccount negQtySell 10 "t1").2.cash < sampleAccount.cash := by
  refine ⟨?_, ?_, ?_, ?_⟩ <;>
    simp [place_order, determineExecutionPrice, apply_slippage, executeBuy, executeSell,
      recordOrder, filledResponse, filledRecord, buyUpdatePositions, sellUpdatePositions,
      sampleAccount, zeroQtyBuy, negQtySell, SLIPPAGE_PERCENT, COMMISSION_PER_TRADE] <;>
    norm_num

/-- Claim C9: `reset_account` restores cash to the starting capital and
clears positions and order history, and is idempotent: resetting a
just-reset account yields the same account state. -/
theorem C9_reset_idempotent (u t t2 : String) (a : Account) :
    (reset_account u t a).cash = STARTING_CASH ∧
    (reset_account u t a).positions = [] ∧
    (reset_account u t a).orders = [] ∧
    reset_account u t (reset_account u t2 a) = reset_account u t a :=
  ⟨rfl, rfl, rfl, rfl⟩

/-- A 2-share market buy on XYZ, used as a concrete filled order. -/
def marketBuy2 : Order :=
  { ticker := "XYZ", otype := "market", side := "buy", quantity := 2, limitPrice := none }

/-- Claim C2: a filled order changes cash by exactly the traded value: a buy
debits quantity × executionPrice + commission, a sell credits
quantity × executionPrice − commission. -/
theorem C2_cash_conservation (a : Account) (o : Order) (mp px : ℚ) (now : String)
    (hfilled : (place_order a o mp now).1.status = "filled")
    (hpx : (place_order a o mp now).1.filledPrice = some px) :
    (place_order a o mp now).2.cash =
      if o.side = "buy" then a.cash - (o.quantity * px + COMMISSION_PER_TRADE)
      else a.cash + (o.quantity * px - COMMISSION_PER_TRADE) := by
  obtain ⟨hmp, px', hdet, hfp, hfq, horders, hcases⟩ :=
    place_order_filled_inv a o mp now hfilled
  rw [hfp, Option.some.injEq] at hpx
  subst hpx
  rcases hcases with ⟨hside, _, hcash, _⟩ | ⟨hside, pos, _, _, hcash, _⟩
  · rw [if_pos hside, hcash]
  · rw [if_neg hside, hcash]

/-- Witness for C2 at a concrete filled buy: 2 shares at market price 10
slip to 1001/100, so cash drops from 100 to 100 − 2002/100. -/
theorem C2_cash_conservation_witness :
    (place_order sampleAccount marketBuy2 10 "t1").2.cash =
      sampleAccount.cash - (2 * (1001/100) + COMMISSION_PER_TRADE) := by
  have hf : (place_order sampleAccount marketBuy2 10 "t1").1.status = "filled" := by
    simp [place_order, determineExecutionPrice, apply_slippage, executeBuy,
      recordOrder, filledResponse, sampleAccount, marketBuy2, SLIPPAGE_PERCENT,
      COMMISSION_PER_TRADE]
    norm_num
  have hp : (place_order sampleAccount marketBuy2 10 "t1").1.filledPrice = some (1001/100) := by
    simp [place_order, determineExecutionPrice, apply_slippage, executeBuy,
      recordOrder, filledResponse, sampleAccount, marketBuy2, SLIPPAGE_PERCENT,
      COMMISSION_PER_TRADE]
    norm_num
  have h := C2_cash_conservation sampleAccount marketBuy2 10 (1001/100) "t1" hf hp
  simpa [marketBuy2] using h

/-- The history record produced by `marketBuy2` on `sampleAccount` at market
price 10. -/
def marketBuy2Record : OrderRecord :=
  { orderId := "order_1", ticker := "XYZ", otype := "market", side := "buy",
    quantity := 2, filledPrice := 1001/100, filledQuantity := 2,
    status := "filled", timestamp := "t1" }

/-- Claim C6: a rejected order leaves the account (cash, positions, order
history) exactly as it was and appends nothing; the order history only ever
receives records with status "filled". -/
theorem C6_rejection_no_mutation (a : Account) (o : Order) (mp : ℚ) (now : String) :
    ((place_order a o mp now).1.status = "rejected" → (place_order a o mp now).2 = a) ∧
    ∀ r ∈ (place_order a o mp now).2.orders, r ∈ a.orders ∨ r.status = "filled" := by
  constructor
  · exact place_order_rejected_unchanged a o mp now
  · intro r hr
    rcases place_order_status a o mp now with hf | hrj
    · obtain ⟨_, px, _, _, _, horders, _⟩ := place_order_filled_inv a o mp now hf
      rw [horders, List.mem_append] at hr
      rcases hr with h1 | h2
      · exact Or.inl h1
      · right
        simp only [List.mem_singleton] at h2
        rw [h2]
        rfl
    · rw [place_order_rejected_unchanged a o mp now hrj] at hr
      exact Or.inl hr

/-- Witness for C6: with an unavailable price the account is returned
unchanged, and the record a filled order appends carries status "filled". -/
theorem C6_rejection_no_mutation_witness :
    (place_order sampleAccount zeroQtyBuy 0 "t1").2 = sampleAccount ∧
    (marketBuy2Record ∈ sampleAccount.orders ∨ marketBuy2Record.status = "filled") := by
  constructor
  · exact (C6_rejection_no_mutation sampleAccount zeroQtyBuy 0 "t1").1
      (by simp [place_order, rejectResponse])
  · refine (C6_rejection_no_mutation sampleAccount marketBuy2 10 "t1").2 marketBuy2Record ?_
    simp [place_order, determineExecutionPrice, apply_slippage, executeBuy,
      recordOrder, filledRecord, filledResponse, buyUpdatePositions, sampleAccount,
      marketBuy2, marketBuy2Record, SLIPPAGE_PERCENT, COMMISSION_PER_TRADE]
    norm_num
    rfl

/-- Claim C7: slippage is the fixed fraction 1/1000 of the reference price,
added for buys and subtracted for sells; a market order's execution price is
the slippage-adjusted market price, while a limit order that obtains an
execution price always obtains its own limit price, never a
slippage-adjusted one. -/
theorem C7_slippage_only_market (p mp px : ℚ) (om ol : Order)
    (hm : om.otype = "market") (hl : ol.otype = "limit")
    (hok : determineExecutionPrice ol mp = Except.ok px) :
    apply_slippage p "buy" = p * (1 + 1/1000) ∧
    apply_slippage p "sell" = p * (1 - 1/1000) ∧
    determineExecutionPrice om mp = Except.ok (apply_slippage mp om.side) ∧
    ol.limitPrice = some px := by
  refine ⟨?_, ?_, ?_, ?_⟩
  · simp [apply_slippage, SLIPPAGE_PERCENT]
    ring
  · simp [apply_slippage, SLIPPAGE_PERCENT]
    ring
  · unfold determineExecutionPrice
    rw [if_pos hm]
  · have hne : ¬ ol.otype = "market" := by
      rw [hl]
      decide
    unfold determineExecutionPrice at hok
    rw [if_neg hne] at hok
    cases hlp : ol.limitPrice with
    | none =>
      rw [hlp] at hok
      simp at hok
    | some lp =>
      rw [hlp] at hok
      simp at hok
      split at hok
      · simp at hok
        rw [hok]
      · split at hok
        · simp at hok
          rw [hok]
        · simp at hok

/-- Witness for C7: a market buy at price 10 executes at 1001/100, and a
limit buy with limit 12 against market price 10 fills at exactly 12. -/
theorem C7_slippage_only_market_witness :
    apply_slippage 10 "buy" = 10 * (1 + 1/1000) ∧
    apply_slippage 10 "sell" = 10 * (1 - 1/1000) ∧
    determineExecutionPrice marketBuy2 10 = Except.ok (apply_slippage 10 marketBuy2.side) ∧
    ({ ticker := "XYZ", otype := "limit", side := "buy", quantity := 2,
       limitPrice := some 12 } : Order).limitPrice = some 12 := by
  exact C7_slippage_only_market 10 10 12 marketBuy2
    { ticker := "XYZ", otype := "limit", side := "buy", quantity := 2, limitPrice := some 12 }
    rfl rfl (by
      simp [determineExecutionPrice]
      norm_num)

/-- A limit buy whose limit price 5 is below the market price 10. -/
def unfavorableLimitBuy : Order :=
  { ticker := "XYZ", otype := "limit", side := "buy", quantity := 2, limitPrice := some 5 }

/-- A limit buy whose limit price 12 is above the market price 10. -/
def favorableLimitBuy : Order :=
  { ticker := "XYZ", otype := "limit", side := "buy", quantity := 2, limitPrice := some 12 }

/-- Counterexample to C5 as stated: an unfavorable limit buy is rejected,
but the rejection message is "Limit price not favorable for immediate
execution" (capital L), not the claimed exact string "limit price not
favorable for immediate execution". -/
theorem C5_counterexample :
    (place_order sampleAccount unfavorableLimitBuy 10 "t1").1.status = "rejected" ∧
    (place_order sampleAccount unfavorableLimitBuy 10 "t1").1.message ≠
      "limit price not favorable for immediate execution" ∧
    (place_order sampleAccount unfavorableLimitBuy 10 "t1").1.message =
      "Limit price not favorable for immediate execution" := by
  have hres : place_order sampleAccount unfavorableLimitBuy 10 "t1" =
      (rejectResponse "Limit price not favorable for immediate execution", sampleAccount) := by
    simp [place_order, determineExecutionPrice, unfavorableLimitBuy]
    norm_num
  rw [hres]
  refine ⟨rfl, by decide, rfl⟩

/-- Claim C5 (amended): for a limit order with a present limit price, a buy
obtains execution price exactly the limit price iff limitPrice ≥ marketPrice
and a sell iff limitPrice ≤ marketPrice, with no slippage applied; otherwise
the order is rejected with reason "Limit price not favorable for immediate
execution" (the message starts with a capital L). -/
theorem C5_limit_order_semantics (o : Order) (mp lp : ℚ)
    (hlim : o.otype = "limit") (hlp : o.limitPrice = some lp) :
    determineExecutionPrice o mp =
      if o.side = "buy" then
        if lp ≥ mp then Except.ok lp
        else Except.error (rejectResponse "Limit price not favorable for immediate execution")
      else if o.side = "sell" then
        if lp ≤ mp then Except.ok lp
        else Except.error (rejectResponse "Limit price not favorable for immediate execution")
      else Except.error (rejectResponse "Limit price not favorable for immediate execution") := by
  have hne : ¬ o.otype = "market" := by
    rw [hlim]
    decide
  unfold determineExecutionPrice
  rw [if_neg hne, hlp]
  by_cases hb : o.side = "buy"
  · by_cases hf : lp ≥ mp
    · simp [hb, hf]
    · simp [hb, hf]
  · by_cases hs : o.side = "sell"
    · by_cases hf : lp ≤ mp
      · simp [hb, hs, hf]
      · simp [hb, hs, hf]
    · simp [hb, hs]

/-- Witness for C5 (amended): the favorable limit buy (12 against market 10)
fills at exactly 12; the unfavorable one (5 against 10) is rejected with the
capitalized message. -/
theorem C5_limit_order_semantics_witness :
    determineExecutionPrice favorableLimitBuy 10 = Except.ok 12 ∧
    determineExecutionPrice unfavorableLimitBuy 10 =
      Except.error (rejectResponse "Limit price not favorable for immediate execution") := by
  constructor
  · have h := C5_limit_order_semantics favorableLimitBuy 10 12 rfl rfl
    rw [h]
    norm_num [favorableLimitBuy]
  · have h := C5_limit_order_semantics unfavorableLimitBuy 10 5 rfl rfl
    rw [h]
    norm_num [unfavorableLimitBuy]


/-- Execution prices are non-negative when the market price and any limit
price are: market fills move the price by only a 1/1000 fraction, limit
fills use the limit price itself. -/
lemma exec_price_nonneg (o : Order) (mp px : ℚ) (hmp : 0 ≤ mp)
    (hlp : ∀ lp, o.limitPrice = some lp → 0 ≤ lp)
    (h : determineExecutionPrice o mp = Except.ok px) : 0 ≤ px := by
  unfold determineExecutionPrice at h
  split at h
  · simp only [Except.ok.injEq] at h
    rw [← h]
    unfold apply_slippage SLIPPAGE_PERCENT
    split
    · nlinarith
    · nlinarith
  · cases hl : o.limitPrice with
    | none =>
      rw [hl] at h
      simp at h
    | some lp =>
      rw [hl] at h
      simp at h
      split at h
      · simp only [Except.ok.injEq] at h
        rw [← h]
        exact hlp lp hl
      · split at h
        · simp only [Except.ok.injEq] at h
          rw [← h]
          exact hlp lp hl
        · simp at h

/-- All-zero cash with a held position: start for the C1 counterexample. -/
def zeroCashAccount : Account :=
  { userId := "user_1", cash := 0, positions := [⟨"XYZ", 5, 10⟩],
    orders := [], createdAt := "t0" }

/-- An account whose $1 of cash cannot cover `marketBuy2`. -/
def brokeAccount : Account :=
  { userId := "user_1", cash := 1, positions := [], orders := [], createdAt := "t0" }

/-- Counterexample to C1 as stated: the account has non-negative cash, yet a
committed (filled) sell with negative quantity leaves cash negative. -/
theorem C1_counterexample :
    0 ≤ zeroCashAccount.cash ∧
    (place_order zeroCashAccount negQtySell 10 "t1").1.status = "filled" ∧
    (place_order zeroCashAccount negQtySell 10 "t1").2.cash < 0 := by
  refine ⟨by norm_num [zeroCashAccount], ?_, ?_⟩ <;>
    simp [place_order, determineExecutionPrice, apply_slippage, executeSell,
      recordOrder, filledResponse, sellUpdatePositions, zeroCashAccount, negQtySell,
      SLIPPAGE_PERCENT, COMMISSION_PER_TRADE] <;>
    norm_num

/-- Claim C1 (amended): for an account with non-negative cash, `place_order`
keeps cash non-negative whenever the order quantity, the market price and
any limit price are non-negative (the code never validates signs, see C10),
`reset_account` restores non-negative cash, and a buy whose required cash
quantity × executionPrice + commission exceeds available cash is always
rejected with the account unchanged. -/
theorem C1_cash_nonneg (a : Account) (o : Order) (mp : ℚ) (now u t : String)
    (hcash : 0 ≤ a.cash) (hq : 0 ≤ o.quantity) (hmp : 0 ≤ mp)
    (hlp : ∀ lp, o.limitPrice = some lp → 0 ≤ lp) :
    0 ≤ (place_order a o mp now).2.cash ∧
    0 ≤ (reset_account u t a).cash ∧
    (∀ px, determineExecutionPrice o mp = Except.ok px → o.side = "buy" →
      a.cash < o.quantity * px + COMMISSION_PER_TRADE →
      (place_order a o mp now).1.status = "rejected" ∧
      (place_order a o mp now).2 = a) := by
  refine ⟨?_, by norm_num [reset_account, STARTING_CASH], ?_⟩
  · by_cases hmp0 : mp = 0
    · simpa [place_order, hmp0] using hcash
    · cases hdet : determineExecutionPrice o mp with
      | error r =>
        rw [place_order_err a o mp now r hmp0 hdet]
        exact hcash
      | ok px =>
        have hpx : 0 ≤ px := exec_price_nonneg o mp px hmp hlp hdet
        rw [place_order_ok a o mp now px hmp0 hdet]
        by_cases hside : o.side = "buy"
        · rw [if_pos hside]
          unfold executeBuy
          split
          · exact hcash
          · rename_i hc
            show 0 ≤ a.cash - (o.quantity * px + COMMISSION_PER_TRADE)
            have := not_lt.mp hc
            linarith
        · rw [if_neg hside]
          unfold executeSell
          split
          · exact hcash
          · split
            · exact hcash
            · show 0 ≤ a.cash + (o.quantity * px - COMMISSION_PER_TRADE)
              have := mul_nonneg hq hpx
              simp only [COMMISSION_PER_TRADE]
              linarith
  · intro px hdet hside hins
    by_cases hmp0 : mp = 0
    · constructor <;> simp [place_order, hmp0, rejectResponse]
    · rw [place_order_ok a o mp now px hmp0 hdet, if_pos hside]
      unfold executeBuy
      rw [if_pos hins]
      exact ⟨rfl, rfl⟩

/-- Witness for C1 (amended): a funded buy keeps cash non-negative, and the
underfunded `brokeAccount` has its buy rejected without mutation. -/
theorem C1_cash_nonneg_witness :
    0 ≤ (place_order sampleAccount marketBuy2 10 "t1").2.cash ∧
    (place_order brokeAccount marketBuy2 10 "t1").1.status = "rejected" ∧
    (place_order brokeAccount marketBuy2 10 "t1").2 = brokeAccount := by
  refine ⟨?_, ?_⟩
  · exact (C1_cash_nonneg sampleAccount marketBuy2 10 "t1" "u" "t"
      (by norm_num [sampleAccount]) (by norm_num [marketBuy2]) (by norm_num)
      (by intro lp hl; simp [marketBuy2] at hl)).1
  · exact (C1_cash_nonneg brokeAccount marketBuy2 10 "t1" "u" "t"
      (by norm_num [brokeAccount]) (by norm_num [marketBuy2]) (by norm_num)
      (by intro lp hl; simp [marketBuy2] at hl)).2.2 (1001/100)
      (by
        simp [determineExecutionPrice, apply_slippage, marketBuy2, SLIPPAGE_PERCENT]
        norm_num)
      rfl
      (by norm_num [brokeAccount, marketBuy2, COMMISSION_PER_TRADE])


/-- Characterization of the ledger sell on a duplicate-free ledger: the
matched entry keeps its average cost basis, its quantity drops by the sold
amount, and it disappears entirely when the new quantity is zero. -/
lemma sellUpdate_spec (ps : List Position) (t : String) (q : ℚ) (pos : Position)
    (hnodup : ps.Pairwise (fun p p2 => p.ticker ≠ p2.ticker))
    (hfind : ps.find? (fun p => p.ticker == t) = some pos) :
    (sellUpdatePositions ps t q).find? (fun p => p.ticker == t) =
      (if pos.quantity - q = 0 then none
       else some { pos with quantity := pos.quantity - q }) ∧
    ∀ p ∈ sellUpdatePositions ps t q, p.ticker = t →
      p.avgCostBasis = pos.avgCostBasis ∧ p.quantity = pos.quantity - q := by
  induction ps with
  | nil => simp at hfind
  | cons p rest ih =>
    by_cases hpt : p.ticker = t
    · have hpp : p = pos := by simpa [List.find?_cons, hpt] using hfind
      subst hpp
      have hrest : ∀ p2 ∈ rest, ¬ p2.ticker = t := by
        intro p2 hp2 hp2t
        exact (List.pairwise_cons.mp hnodup).1 p2 hp2 (hpt.trans hp2t.symm)
      have hrestnone : rest.find? (fun p2 => p2.ticker == t) = none := by
        rw [List.find?_eq_none]
        intro p2 hp2
        simpa using hrest p2 hp2
      unfold sellUpdatePositions
      rw [if_pos hpt]
      by_cases hz : p.quantity - q = 0
      · rw [if_pos hz, if_pos hz]
        refine ⟨hrestnone, ?_⟩
        intro p2 hp2 hp2t
        exact absurd hp2t (hrest p2 hp2)
      · rw [if_neg hz, if_neg hz]
        constructor
        · simp [List.find?_cons, hpt]
        · intro p2 hp2 hp2t
          rcases List.mem_cons.mp hp2 with h1 | h2
          · rw [h1]
            exact ⟨rfl, rfl⟩
          · exact absurd hp2t (hrest p2 h2)
    · have hfind2 : rest.find? (fun p2 => p2.ticker == t) = some pos := by
        simpa [List.find?_cons, hpt] using hfind
      obtain ⟨ihfind, ihall⟩ := ih (List.Pairwise.of_cons hnodup) hfind2
      unfold sellUpdatePositions
      rw [if_neg hpt]
      have hb : (p.ticker == t) = false := by simp [hpt]
      constructor
      · rw [List.find?_cons, hb]
        exact ihfind
      · intro p2 hp2 hp2t
        rcases List.mem_cons.mp hp2 with h1 | h2
        · rw [h1] at hp2t
          exact absurd hp2t hpt
        · exact ihall p2 h2 hp2t


/-- Claim C4: a filled sell never changes the position's average cost basis,
only its quantity, which drops by the sold amount; selling the entire held
quantity removes the entry, so the sold ticker never remains with quantity
zero. Stated for a ledger with at most one entry per ticker, the shape every
reachable ledger has. -/
theorem C4_sell_preserves_basis (a : Account) (o : Order) (mp : ℚ) (now : String)
    (pos : Position)
    (hnodup : a.positions.Pairwise (fun p p2 => p.ticker ≠ p2.ticker))
    (hside : o.side = "sell")
    (hfind : a.positions.find? (fun p => p.ticker == o.ticker) = some pos)
    (hfilled : (place_order a o mp now).1.status = "filled") :
    ((place_order a o mp now).2.positions.find? (fun p => p.ticker == o.ticker) =
      (if pos.quantity - o.quantity = 0 then none
       else some { pos with quantity := pos.quantity - o.quantity })) ∧
    ∀ p ∈ (place_order a o mp now).2.positions, p.ticker = o.ticker →
      p.avgCostBasis = pos.avgCostBasis ∧ p.quantity = pos.quantity - o.quantity ∧
      p.quantity ≠ 0 := by
  obtain ⟨hmp, px, hdet, _, _, _, hcases⟩ := place_order_filled_inv a o mp now hfilled
  rcases hcases with ⟨hbuy, _⟩ | ⟨_, pos2, hfind2, hq2, _, hpos⟩
  · rw [hside] at hbuy
    exact absurd hbuy (by decide)
  · rw [hfind, Option.some.injEq] at hfind2
    subst hfind2
    rw [hpos]
    obtain ⟨h1, h2⟩ := sellUpdate_spec a.positions o.ticker o.quantity pos hnodup hfind
    refine ⟨h1, ?_⟩
    intro p hp hpt
    obtain ⟨hb, hq⟩ := h2 p hp hpt
    refine ⟨hb, hq, ?_⟩
    intro h0
    rw [hq] at h0
    rw [if_pos h0, List.find?_eq_none] at h1
    exact h1 p hp (by simp [hpt])

/-- A sell of the full 5-share XYZ position. -/
def sellAllXYZ : Order :=
  { ticker := "XYZ", otype := "market", side := "sell", quantity := 5, limitPrice := none }

/-- Witness for C4: selling the full XYZ position of `sampleAccount` removes
the entry from the ledger. -/
theorem C4_sell_preserves_basis_witness :
    (place_order sampleAccount sellAllXYZ 10 "t1").2.positions.find?
      (fun p => p.ticker == sellAllXYZ.ticker) = none := by
  have h := (C4_sell_preserves_basis sampleAccount sellAllXYZ 10 "t1" ⟨"XYZ", 5, 10⟩
    (by simp [sampleAccount]) rfl
    (by simp [sampleAccount, sellAllXYZ, List.find?_cons])
    (by
      simp [place_order, determineExecutionPrice, apply_slippage, executeSell,
        recordOrder, filledResponse, sellUpdatePositions, sampleAccount, sellAllXYZ,
        SLIPPAGE_PERCENT, COMMISSION_PER_TRADE])).1
  simpa [sellAllXYZ] using h


/-- The cumulative ledger effect of a sequence of filled buys of the same
ticker: each step is exactly the position update `place_order` performs for
a buy (lines 251-269), fed the fill's quantity and execution price. -/
def applyBuys (t : String) (l : List (ℚ × ℚ)) (ps : List Position) : List Position :=
  l.foldl (fun ps2 qp => buyUpdatePositions ps2 t qp.1 qp.2) ps

/-- Folding buys over a single-ticker ledger keeps one entry whose quantity
is the total bought and whose basis is the weighted mean, seeded by the
running totals. -/
lemma applyBuys_single (t : String) (l : List (ℚ × ℚ))
    (hpos : ∀ qp ∈ l, 0 < qp.1) :
    ∀ Q A : ℚ, 0 < Q →
      applyBuys t l [{ ticker := t, quantity := Q, avgCostBasis := A }] =
        [{ ticker := t,
           quantity := Q + (l.map Prod.fst).sum,
           avgCostBasis := (Q * A + (l.map fun qp => qp.1 * qp.2).sum) /
             (Q + (l.map Prod.fst).sum) }] := by
  induction l with
  | nil =>
    intro Q A hQ
    simp [applyBuys]
    rw [mul_div_cancel_left₀ A (ne_of_gt hQ)]
  | cons qp rest ih =>
    intro Q A hQ
    have hq : 0 < qp.1 := hpos qp (List.mem_cons_self qp rest)
    have hQq : 0 < Q + qp.1 := by linarith
    have hstep : applyBuys t (qp :: rest)
        [{ ticker := t, quantity := Q, avgCostBasis := A }] =
        applyBuys t rest
          [{ ticker := t, quantity := Q + qp.1,
             avgCostBasis := (Q * A + qp.1 * qp.2) / (Q + qp.1) }] := by
      simp [applyBuys, buyUpdatePositions]
    rw [hstep, ih (fun x hx => hpos x (List.mem_cons_of_mem qp hx)) _ _ hQq]
    have hcancel : (Q + qp.1) * ((Q * A + qp.1 * qp.2) / (Q + qp.1)) =
        Q * A + qp.1 * qp.2 := mul_div_cancel₀ _ (ne_of_gt hQq)
    simp only [List.map_cons, List.sum_cons, List.cons.injEq, and_true,
      Position.mk.injEq, hcancel, true_and]
    constructor
    · ring
    · congr 1
      · ring
      · ring


/-- Claim C3: a sequence of filled buys of the same ticker (positive
quantities and prices) starting from no position yields a single position
whose average cost basis is the quantity-weighted mean of the fill prices,
and any permutation of the sequence yields the identical position. -/
theorem C3_weighted_average (t : String) (l l2 : List (ℚ × ℚ)) (hperm : l.Perm l2)
    (hpos : ∀ qp ∈ l, 0 < qp.1 ∧ 0 < qp.2) (hne : l ≠ []) :
    applyBuys t l [] =
      [{ ticker := t, quantity := (l.map Prod.fst).sum,
         avgCostBasis := (l.map fun qp => qp.1 * qp.2).sum / (l.map Prod.fst).sum }] ∧
    applyBuys t l [] = applyBuys t l2 [] := by
  have main : ∀ (m : List (ℚ × ℚ)), (∀ qp ∈ m, 0 < qp.1) → m ≠ [] →
      applyBuys t m [] =
        [{ ticker := t, quantity := (m.map Prod.fst).sum,
           avgCostBasis := (m.map fun qp => qp.1 * qp.2).sum / (m.map Prod.fst).sum }] := by
    intro m hm hmne
    cases m with
    | nil => exact absurd rfl hmne
    | cons qp rest =>
      have h0 : applyBuys t (qp :: rest) [] =
          applyBuys t rest [{ ticker := t, quantity := qp.1, avgCostBasis := qp.2 }] := by
        simp [applyBuys, buyUpdatePositions]
      rw [h0, applyBuys_single t rest (fun x hx => hm x (List.mem_cons_of_mem qp hx))
        qp.1 qp.2 (hm qp (List.mem_cons_self qp rest))]
      simp only [List.map_cons, List.sum_cons]
  have hpos2 : ∀ qp ∈ l2, 0 < qp.1 ∧ 0 < qp.2 := fun qp hqp =>
    hpos qp (hperm.mem_iff.mpr hqp)
  have hne2 : l2 ≠ [] := by
    intro h
    rw [h] at hperm
    exact hne hperm.eq_nil
  have h1 := main l (fun qp hqp => (hpos qp hqp).1) hne
  have h2 := main l2 (fun qp hqp => (hpos2 qp hqp).1) hne2
  refine ⟨h1, ?_⟩
  rw [h1, h2, (hperm.map Prod.fst).sum_eq, (hperm.map fun qp => qp.1 * qp.2).sum_eq]

/-- Witness for C3: buys of 1 share at 2 and 3 shares at 4 end at 4 shares
with basis 7/2, in either order. -/
theorem C3_weighted_average_witness :
    applyBuys "XYZ" [(1, 2), (3, 4)] [] =
      [{ ticker := "XYZ", quantity := 4, avgCostBasis := 7/2 }] ∧
    applyBuys "XYZ" [(1, 2), (3, 4)] [] = applyBuys "XYZ" [(3, 4), (1, 2)] [] := by
  obtain ⟨h1, h2⟩ := C3_weighted_average "XYZ" [(1, 2), (3, 4)] [(3, 4), (1, 2)]
    (List.Perm.swap (3, 4) (1, 2) [])
    (by
      intro qp hqp
      simp at hqp
      rcases hqp with h | h <;> rw [h] <;> norm_num)
    (by simp)
  constructor
  · rw [h1]
    norm_num
  · exact h2



/-- Folding market values from a starting cash amount equals cash plus the
sum of market values (the loop of lines 129-149). -/
lemma foldl_marketValue (l : List PositionMetrics) (c : ℚ) :
    l.foldl (fun acc m => acc + m.marketValue) c =
      c + (l.map fun m => m.marketValue).sum := by
  induction l generalizing c with
  | nil => simp
  | cons m rest ih =>
    simp only [List.foldl_cons, List.map_cons, List.sum_cons, ih]
    ring

/-- An account holding a short-like negative position, reachable through a
negative-quantity buy (see C10). -/
def negPositionAccount : Account :=
  { userId := "user_1", cash := 0, positions := [⟨"XYZ", -1, 10⟩],
    orders := [], createdAt := "t0" }

/-- Counterexample to C8 as stated: with oracle price 0, the XYZ position of
`negPositionAccount` has cost basis −10 and unrealized P&L 10, so the
claimed formula gives 10 / (−10) × 100 = −100, yet the code stores
unrealizedPLPercent = 0 because its guard is `costBasis > 0`, not
`costBasis = 0`. -/
theorem C8_counterexample :
    (calculate_account_metrics (fun _ => 0) negPositionAccount).positions =
      [{ ticker := "XYZ", quantity := -1, avgCostBasis := 10, currentPrice := 0,
         marketValue := 0, unrealizedPL := 10, unrealizedPLPercent := 0 }] ∧
    (10 : ℚ) / (-1 * 10) * 100 = -100 ∧ (0 : ℚ) ≠ -100 := by
  refine ⟨?_, by norm_num, by norm_num⟩
  simp [calculate_account_metrics, positionMetrics, negPositionAccount]

/-- Claim C8 (amended): valuation computes, per position, currentPrice from
the oracle (0 standing for unavailable), marketValue = quantity ×
currentPrice, unrealizedPL = marketValue − quantity × avgCostBasis, and
unrealizedPLPercent = unrealizedPL / costBasis × 100 when costBasis > 0 and
0 otherwise (also for negative costBasis, not only zero); and the aggregates
totalValue = cash + Σ marketValue, totalPL = totalValue − startingCapital,
totalPLPercent = totalPL / startingCapital × 100. -/
theorem C8_valuation (f : String → ℚ) (a : Account) (m : PositionMetrics)
    (hm : m ∈ (calculate_account_metrics f a).positions) :
    (calculate_account_metrics f a).cash = a.cash ∧
    (calculate_account_metrics f a).positions = a.positions.map (positionMetrics f) ∧
    (calculate_account_metrics f a).totalValue =
      a.cash + ((calculate_account_metrics f a).positions.map
        (fun x => x.marketValue)).sum ∧
    (calculate_account_metrics f a).totalPL =
      (calculate_account_metrics f a).totalValue - STARTING_CASH ∧
    (calculate_account_metrics f a).totalPLPercent =
      (calculate_account_metrics f a).totalPL / STARTING_CASH * 100 ∧
    m.currentPrice = f m.ticker ∧
    m.marketValue = m.quantity * m.currentPrice ∧
    m.unrealizedPL = m.marketValue - m.quantity * m.avgCostBasis ∧
    m.unrealizedPLPercent =
      (if m.quantity * m.avgCostBasis > 0 then
        m.unrealizedPL / (m.quantity * m.avgCostBasis) * 100
       else 0) := by
  have hpct : (calculate_account_metrics f a).totalPLPercent =
      if STARTING_CASH > 0 then
        (calculate_account_metrics f a).totalPL / STARTING_CASH * 100
      else 0 := rfl
  obtain ⟨p, hp, rfl⟩ :=
    List.mem_map.mp (show m ∈ a.positions.map (positionMetrics f) from hm)
  exact ⟨rfl, rfl, foldl_marketValue _ _, rfl,
    by rw [hpct, if_pos (show (0:ℚ) < STARTING_CASH by norm_num [STARTING_CASH])],
    rfl, rfl, rfl, rfl⟩


/-- Witness for C8 at oracle price 15 over `sampleAccount`. -/
theorem C8_valuation_witness :
    (calculate_account_metrics (fun _ => 15) sampleAccount).cash = sampleAccount.cash ∧
    (calculate_account_metrics (fun _ => 15) sampleAccount).totalValue =
      sampleAccount.cash +
        ((calculate_account_metrics (fun _ => 15) sampleAccount).positions.map
          (fun x => x.marketValue)).sum := by
  have h := C8_valuation (fun _ => 15) sampleAccount
    (positionMetrics (fun _ => 15) ⟨"XYZ", 5, 10⟩)
    (by simp [calculate_account_metrics, sampleAccount])
  exact ⟨h.1, h.2.2.1⟩

end PaperTrading
